import Mathlib

/-! Verification of the esp-hal I2C master driver (src/esp-hal/src/i2c/).

A shallow embedding of the driver's data model and operations, translated
from the Rust source. Machine integers (u8/u32) are modelled as Nat with
explicit reductions modulo 2^8 / 2^32 where the source performs wrapping
casts or release-mode wrapping arithmetic. Fallible Rust functions returning
Result are modelled with Except. Hardware registers are modelled by explicit
record states; hardware-driven register evolution during polling loops is
modelled by observation sequences (Nat-indexed snapshots). -/

set_option maxRecDepth 2000
set_option linter.dupNamespace false
set_option linter.unreachableTactic false
set_option linter.unusedTactic false

namespace I2cHal

/-- Chip variant tag, standing for the compile-time cfg selection in the
source (esp32, esp32s2, esp32c2, esp32c3, esp32c6, esp32h2, esp32s3). -/
inductive Variant
  | esp32
  | esp32s2
  | esp32c2
  | esp32c3
  | esp32c6
  | esp32h2
  | esp32s3
deriving DecidableEq

/-- i2c/mod.rs AcknowledgeCheckFailedReason. -/
inductive AcknowledgeCheckFailedReason
  | Address
  | Data
  | Unknown
deriving DecidableEq

/-- i2c/mod.rs Error. -/
inductive Error
  | FifoExceeded
  | AcknowledgeCheckFailed (reason : AcknowledgeCheckFailedReason)
  | Timeout
  | ArbitrationLost
  | ExecutionIncomplete
  | CommandNumberExceeded
  | ZeroLengthInvalid
deriving DecidableEq

/-- i2c/mod.rs ConfigError. -/
inductive ConfigError
  | FrequencyInvalid
  | TimeoutInvalid
deriving DecidableEq

/-- i2c/mod.rs Ack. -/
inductive Ack
  | Ack
  | Nack
deriving DecidableEq

/-- i2c/mod.rs Command. Length fields are u8 in the source; callers cast
with `as u8`, which we model by a reduction modulo 256 at the cast sites. -/
inductive Command
  | Start
  | Stop
  | End
  | Write (ack_exp : Ack) (ack_check_en : Bool) (length : Nat)
  | Read (ack_value : Ack) (length : Nat)
deriving DecidableEq

/-- i2c/mod.rs OpKind. -/
inductive OpKind
  | Write
  | Read
deriving DecidableEq

/-- i2c/mod.rs Operation. A write carries its payload bytes; for a read only
the buffer length is observable by the driver code modelled here. -/
inductive Operation
  | Write (bytes : List Nat)
  | Read (len : Nat)
deriving DecidableEq

/-- Operation::is_write. -/
def Operation.is_write : Operation → Bool
  | .Write _ => true
  | .Read _ => false

/-- Operation::is_empty. -/
def Operation.is_empty : Operation → Bool
  | .Write bytes => bytes.isEmpty
  | .Read len => len == 0

/-- Operation::kind. -/
def Operation.kind : Operation → OpKind
  | .Write _ => .Write
  | .Read _ => .Read

/-- The raw interrupt status bits (int_raw register) that the driver reads,
together with their reset state. All bits listed are inside
I2C_LL_INTR_MASK, so an int_clr write of the mask clears all of them. -/
structure IntrFlags where
  time_out : Bool
  nack : Bool
  arbitration_lost : Bool
  trans_complete : Bool
  end_detect : Bool
  txfifo_wm : Bool
  txfifo_ovf : Bool
  rxfifo_wm : Bool
deriving DecidableEq

/-- All interrupt flags deasserted, the state after an int_clr write of
I2C_LL_INTR_MASK. -/
def IntrFlags.clearAll : IntrFlags :=
  ⟨false, false, false, false, false, false, false, false⟩

/-- One hardware command slot (COMD register) as the driver observes it:
its raw bits, whether its opcode field decodes to End, and its done bit. -/
structure CmdSlot where
  bits : Nat
  opcode_is_end : Bool
  command_done : Bool
deriving DecidableEq

/-- The register state the modelled driver functions read and write:
raw interrupt flags, the sr.resp_rec status bit, the TX FIFO read address
(fifo_st.txfifo_raddr), both FIFO contents and the command slots. -/
structure HwState where
  int_raw : IntrFlags
  resp_rec : Bool
  txfifo_raddr : Nat
  txfifo : List Nat
  rxfifo : List Nat
  comd : List CmdSlot
deriving DecidableEq

/-- Driver::reset (driver.rs): FSM reset, clear all interrupts, reset both
FIFOs (contents and pointers), and zero every command slot. -/
def reset (s : HwState) : HwState :=
  { s with
    int_raw := .clearAll
    txfifo_raddr := 0
    txfifo := []
    rxfifo := []
    comd := s.comd.map fun _ => ⟨0, false, false⟩ }

/-- Driver::clear_all_interrupts (driver.rs): int_clr write of
I2C_LL_INTR_MASK, deasserting every raw interrupt flag. -/
def clear_all_interrupts (s : HwState) : HwState :=
  { s with int_raw := .clearAll }

/-- estimate_ack_failed_reason (i2c/mod.rs): Unknown on esp32, esp32s2,
esp32c2 and esp32c3; on the remaining variants, Address when the TX FIFO
read pointer (fifo_st.txfifo_raddr) is at most 1, else Data. -/
def estimate_ack_failed_reason (v : Variant) (s : HwState) :
    AcknowledgeCheckFailedReason :=
  if v = .esp32 ∨ v = .esp32s2 ∨ v = .esp32c2 ∨ v = .esp32c3 then .Unknown
  else if s.txfifo_raddr ≤ 1 then .Address else .Data

/-- Driver::check_errors (driver.rs), the retval computation: classify the
raw fault flags in priority order (time_out, nack, arbitration_lost; on
non-esp32 variants additionally trans_complete with resp_rec clear). -/
def check_errors_retval (v : Variant) (s : HwState) : Except Error Unit :=
  let interrupts := s.int_raw
  if v = .esp32 then
    if interrupts.time_out then .error .Timeout
    else if interrupts.nack then
      .error (.AcknowledgeCheckFailed (estimate_ack_failed_reason v s))
    else if interrupts.arbitration_lost then .error .ArbitrationLost
    else .ok ()
  else
    if interrupts.time_out then .error .Timeout
    else if interrupts.nack then
      .error (.AcknowledgeCheckFailed (estimate_ack_failed_reason v s))
    else if interrupts.arbitration_lost then .error .ArbitrationLost
    else if interrupts.trans_complete && !s.resp_rec then
      .error (.AcknowledgeCheckFailed .Data)
    else .ok ()

/-- Driver::check_errors, continued: reset the peripheral before returning
when the classification is an error, leave the state alone otherwise. -/
def check_errors (v : Variant) (s : HwState) : Except Error Unit × HwState :=
  match check_errors_retval v s with
  | .error e => (.error e, reset s)
  | .ok _ => (.ok (), s)

/-- The hardware command queue as seen through the driver's cmd_iterator:
the number of free slots remaining and the commands written so far. -/
structure CmdQueue where
  capacity : Nat
  cmds : List Command
deriving DecidableEq

/-- add_cmd (driver.rs): write the command to the next free slot, or fail
with CommandNumberExceeded when the iterator is exhausted. -/
def add_cmd (q : CmdQueue) (command : Command) : Except Error CmdQueue :=
  match q.capacity with
  | 0 => .error .CommandNumberExceeded
  | n + 1 => .ok ⟨n, q.cmds ++ [command]⟩

/-- Driver::setup_write (driver.rs): bounds check against 254/255, a single
Write command when there is data (address byte included when start), and
the address with the write-direction bit (0) pushed to the TX FIFO when
start. Returns the updated queue and the bytes written to the TX FIFO. -/
def setup_write (addr : Nat) (bytes : List Nat) (start : Bool) (q : CmdQueue) :
    Except Error (CmdQueue × List Nat) :=
  let max_len := if start then 254 else 255
  if bytes.length > max_len then .error .FifoExceeded
  else
    let write_len := if start then bytes.length + 1 else bytes.length
    (if write_len > 0 then
        add_cmd q (.Write .Ack true (write_len % 256))
      else .ok q).bind fun q =>
    .ok (q, if start then [((addr <<< 1) % 256) ||| 0] else [])

/-- Driver::setup_read (driver.rs): ZeroLengthInvalid on an empty buffer,
bounds check against 255/254, then the optional address Write command, the
ACK-policy Read command over the initial bytes, the final NACK Read when
this read ends the transaction, and the address byte with the
read-direction bit (1) pushed to the TX FIFO when start. -/
def setup_read (addr : Nat) (bufLen : Nat) (start will_continue : Bool) (q : CmdQueue) :
    Except Error (CmdQueue × List Nat) :=
  if bufLen = 0 then .error .ZeroLengthInvalid
  else
    let max_len := if will_continue then 255 else 254
    let initial_len := if will_continue then bufLen else bufLen - 1
    if bufLen > max_len then .error .FifoExceeded
    else
      (if start then add_cmd q (.Write .Ack true 1) else .ok q).bind fun q =>
      (if initial_len > 0 then add_cmd q (.Read .Ack (initial_len % 256)) else .ok q).bind fun q =>
      (if !will_continue then add_cmd q (.Read .Nack 1) else .ok q).bind fun q =>
      .ok (q, if start then [((addr <<< 1) % 256) ||| 1] else [])

/-- Decidable equality on Except results, for concrete evaluation. -/
instance {ε : Type u} {α : Type v} [DecidableEq ε] [DecidableEq α] :
    DecidableEq (Except ε α)
  | .ok a, .ok b =>
    if h : a = b then .isTrue (by rw [h]) else .isFalse (by simp [h])
  | .ok _, .error _ => .isFalse (by simp)
  | .error _, .ok _ => .isFalse (by simp)
  | .error e, .error f =>
    if h : e = f then .isTrue (by rw [h]) else .isFalse (by simp [h])

/-- Per the spec's wording: the variants offering FIFO read-pointer
introspection for the NACK-reason heuristic. -/
def Variant.has_pointer_introspection : Variant → Bool
  | .esp32c6 | .esp32h2 | .esp32s3 => true
  | _ => false

/-- The claim's description of the NACK-reason heuristic, for comparison
with estimate_ack_failed_reason: with pointer introspection, a read pointer
at most 1 means Address, otherwise Data; without it, always Unknown. -/
def ackReasonSpec (v : Variant) (s : HwState) : AcknowledgeCheckFailedReason :=
  if v.has_pointer_introspection then
    if s.txfifo_raddr ≤ 1 then .Address else .Data
  else .Unknown

/-- check_timeout (driver.rs): accept the derived register value when it is
at most the variant maximum, reject it with TimeoutInvalid otherwise. -/
def check_timeout (v max : Nat) : Except ConfigError Nat :=
  if v ≤ max then .ok v else .error .TimeoutInvalid

/-- The BusCycles timeout computation of Driver::set_frequency on the esp32
variant (driver.rs): cycles * 2 * half_cycle in wrapping u32 arithmetic,
checked against 0xF_FFFF. -/
def set_frequency_timeout_esp32 (cycles half_cycle : Nat) : Except ConfigError Nat :=
  check_timeout ((cycles * 2 * half_cycle) % 2 ^ 32) 0xFFFFF

/-- The BusCycles timeout computation of Driver::set_frequency on the
esp32s2 variant (driver.rs): cycles * 2 * half_cycle in wrapping u32
arithmetic, checked against 0xFF_FFFF. -/
def set_frequency_timeout_esp32s2 (cycles half_cycle : Nat) : Except ConfigError Nat :=
  check_timeout ((cycles * 2 * half_cycle) % 2 ^ 32) 0xFFFFFF

/-- The to_peri value of the exponent-form timeout computation in
Driver::set_frequency on esp32c2/c3/c6/h2/s3 (driver.rs):
(cycles * 2 * half_cycle).max(1) in wrapping u32 arithmetic. -/
def timeout_to_peri (cycles half_cycle : Nat) : Nat :=
  max ((cycles * 2 * half_cycle) % 2 ^ 32) 1

/-- The raw exponent of the exponent-form timeout computation: ilog2 of
to_peri, incremented when to_peri is not an exact power of two so that the
effective timeout is rounded up. -/
def timeout_raw_exponent (cycles half_cycle : Nat) : Nat :=
  let to_peri := timeout_to_peri cycles half_cycle
  let log2 := to_peri.log2
  if to_peri ≠ 1 <<< log2 then log2 + 1 else log2

/-- The BusCycles timeout computation of Driver::set_frequency on the
exponent-form variants (esp32c2/c3/c6/h2/s3): the rounded exponent checked
against 0x1F. -/
def set_frequency_timeout_exponent (cycles half_cycle : Nat) : Except ConfigError Nat :=
  check_timeout (timeout_raw_exponent cycles half_cycle) 0x1F

/-- MAX_ITERATIONS (i2c/mod.rs): the bounded polling budget. -/
def MAX_ITERATIONS : Nat := 1000000

/-- Driver::check_all_commands_done (driver.rs): every occupied command
slot whose opcode is not End must report done; the first slot that is
non-empty, not an End and not done yields ExecutionIncomplete. -/
def check_all_commands_done : List CmdSlot → Except Error Unit
  | [] => .ok ()
  | c :: rest =>
    if c.bits ≠ 0 ∧ c.opcode_is_end = false ∧ c.command_done = false then
      .error .ExecutionIncomplete
    else check_all_commands_done rest

/-- The completion condition of wait_for_completion (driver.rs): a full
transmission was completed, i.e. trans_complete when not end_only, or
end_detect. -/
def completionSeen (end_only : Bool) (s : HwState) : Bool :=
  (!end_only && s.int_raw.trans_complete) || s.int_raw.end_detect

/-- The polling loop of Driver::wait_for_completion_blocking (driver.rs).
obs i is the register snapshot the i-th iteration observes; each iteration
classifies faults first (check_errors, which resets on error), then tests
the completion condition, then decrements the remaining budget tout,
returning Timeout when it reaches zero. The budget-0 entry case is never
reached from the MAX_ITERATIONS entry point. -/
def waitPoll (v : Variant) (end_only : Bool) (obs : Nat → HwState) :
    Nat → Nat → Except Error Unit
  | 0, _ => .error .Timeout
  | tout + 1, i =>
    ((check_errors v (obs i)).1).bind fun _ =>
      if completionSeen end_only (obs i) then .ok ()
      else
        match tout with
        | 0 => .error .Timeout
        | t + 1 => waitPoll v end_only obs (t + 1) (i + 1)

/-- Driver::wait_for_completion_blocking (driver.rs): poll with a budget of
MAX_ITERATIONS iterations, then check that all commands are done. slots are
the command registers as read by check_all_commands_done afterwards. -/
def wait_for_completion_blocking (v : Variant) (end_only : Bool)
    (obs : Nat → HwState) (slots : List CmdSlot) : Except Error Unit :=
  (waitPoll v end_only obs MAX_ITERATIONS 0).bind fun _ =>
    check_all_commands_done slots

/-- Driver::write_operation_blocking (driver.rs), entry: clear all pending
interrupts, then return Ok immediately for a zero-length write without
start or stop; every other input continues into the transfer path, which
is abstracted as the rest parameter acting on the state that
clear_all_interrupts left behind. -/
def write_operation_blocking (rest : HwState → Except Error Unit × HwState)
    (bytes : List Nat) (start stop : Bool) (s : HwState) :
    Except Error Unit × HwState :=
  let s := clear_all_interrupts s
  if bytes = [] ∧ start = false ∧ stop = false then (.ok (), s)
  else rest s

/-- Rust slice::chunks with chunk size C: consecutive chunks of length C,
the last possibly shorter; an empty slice yields no chunks. -/
def chunksOf {α : Type} (C : Nat) (l : List α) : List (List α) :=
  if h : l.isEmpty ∨ C = 0 then []
  else l.take C :: chunksOf C (l.drop C)
termination_by l.length
decreasing_by
  simp only [not_or, List.isEmpty_eq_true] at h
  have hl : 0 < l.length := List.length_pos.mpr h.1
  simp only [List.length_drop]
  omega

/-- I2C_CHUNK_SIZE (i2c/mod.rs): 32 on the FIFO-depth-limited variants
esp32/esp32s2, 254 elsewhere. -/
def I2C_CHUNK_SIZE (v : Variant) : Nat :=
  if v = .esp32 ∨ v = .esp32s2 then 32 else 254

/-- One physical read operation issued by the chunking read driver: the
chunk length and the flags passed to read_operation. -/
structure ReadOp where
  len : Nat
  start : Bool
  stop : Bool
  will_continue : Bool
deriving DecidableEq

/-- One physical write operation issued by the chunking write driver: the
chunk contents and the flags passed to write_operation. -/
structure WriteOp where
  bytes : List Nat
  start : Bool
  stop : Bool
deriving DecidableEq

/-- Driver::read_blocking (driver.rs): its loop enumerates the chunks of
the buffer and calls read_operation_blocking per chunk with start only on
the first, stop only on the last, and will_continue forced on every chunk
before the last. This models the sequence of physical operations the loop
issues (the loop aborts at the first failing operation). -/
def read_blocking_ops (v : Variant) (buffer : List Nat)
    (start stop will_continue : Bool) : List ReadOp :=
  let chunk_count := (buffer.length + I2C_CHUNK_SIZE v - 1) / I2C_CHUNK_SIZE v
  (chunksOf (I2C_CHUNK_SIZE v) buffer).enum.map fun p =>
    ⟨p.2.length, start && decide (p.1 = 0), stop && decide (p.1 = chunk_count - 1),
      will_continue || decide (p.1 < chunk_count - 1)⟩

/-- Driver::write_blocking (driver.rs): an empty buffer is forwarded as a
single empty write_operation_blocking call with the caller's flags;
otherwise the loop enumerates the chunks like the read driver. -/
def write_blocking_ops (v : Variant) (buffer : List Nat)
    (start stop : Bool) : List WriteOp :=
  if buffer = [] then [⟨[], start, stop⟩]
  else
    let chunk_count := (buffer.length + I2C_CHUNK_SIZE v - 1) / I2C_CHUNK_SIZE v
    (chunksOf (I2C_CHUNK_SIZE v) buffer).enum.map fun p =>
      ⟨p.2, start && decide (p.1 = 0), stop && decide (p.1 = chunk_count - 1)⟩

/-- Driver::read (driver.rs), the async chunking driver: textually the same
loop as read_blocking. -/
def read_async_ops (v : Variant) (buffer : List Nat)
    (start stop will_continue : Bool) : List ReadOp :=
  let chunk_count := (buffer.length + I2C_CHUNK_SIZE v - 1) / I2C_CHUNK_SIZE v
  (chunksOf (I2C_CHUNK_SIZE v) buffer).enum.map fun p =>
    ⟨p.2.length, start && decide (p.1 = 0), stop && decide (p.1 = chunk_count - 1),
      will_continue || decide (p.1 < chunk_count - 1)⟩

/-- Driver::write (driver.rs), the async chunking driver: textually the
same loop as write_blocking. -/
def write_async_ops (v : Variant) (buffer : List Nat)
    (start stop : Bool) : List WriteOp :=
  if buffer = [] then [⟨[], start, stop⟩]
  else
    let chunk_count := (buffer.length + I2C_CHUNK_SIZE v - 1) / I2C_CHUNK_SIZE v
    (chunksOf (I2C_CHUNK_SIZE v) buffer).enum.map fun p =>
      ⟨p.2, start && decide (p.1 = 0), stop && decide (p.1 = chunk_count - 1)⟩

/-- The claim's positional description of the chunked read plan: only the
first chunk receives the caller's start flag, only the last the caller's
stop flag and the caller's will_continue, intermediate chunks get
start = false and stop = false and will_continue = true. -/
def readPlanSpec (C : Nat) (buffer : List Nat)
    (start stop will_continue : Bool) : List ReadOp :=
  let chunks := chunksOf C buffer
  let n := chunks.length
  chunks.enum.map fun p =>
    ⟨p.2.length, if p.1 = 0 then start else false,
      if p.1 = n - 1 then stop else false,
      if p.1 = n - 1 then will_continue else true⟩

/-- The claim's positional description of the chunked write plan. -/
def writePlanSpec (C : Nat) (buffer : List Nat)
    (start stop : Bool) : List WriteOp :=
  let chunks := chunksOf C buffer
  let n := chunks.length
  chunks.enum.map fun p =>
    ⟨p.2, if p.1 = 0 then start else false, if p.1 = n - 1 then stop else false⟩

namespace FifoLimited

/-- fill_tx_fifo on the esp32/esp32s2 variants (driver.rs): a slice longer
than 31 bytes fails with FifoExceeded; otherwise all bytes are pushed to
the FIFO and the byte count is returned. -/
def fill_tx_fifo (bytes : List Nat) : Except Error Nat :=
  if bytes.length > 31 then .error .FifoExceeded
  else .ok bytes.length

/-- The byte loop of write_remaining_tx_fifo_blocking on esp32/esp32s2:
each byte is written to the FIFO and followed by a fault check, abstracted
as the oracle ck indexed by byte position; aborts at the first fault. -/
def writeChecked (ck : Nat → Except Error Unit) :
    List Nat → Nat → Except Error Unit
  | [], _ => .ok ()
  | _ :: rest, i => (ck i).bind fun _ => writeChecked ck rest (i + 1)

/-- write_remaining_tx_fifo_blocking on the esp32/esp32s2 variants
(driver.rs): returns Ok when the start index is past the end, else writes
every byte with a fault check after each. -/
def write_remaining_tx_fifo_blocking (ck : Nat → Except Error Unit)
    (start_index : Nat) (bytes : List Nat) : Except Error Unit :=
  if start_index ≥ bytes.length then .ok ()
  else writeChecked ck bytes 0

/-- Driver::start_write_operation (driver.rs) on esp32/esp32s2: reset FIFO
and command list (fresh 16-slot command queue), queue Start when requested,
the write command via setup_write, then Stop or End, and fill the TX
FIFO. -/
def start_write_operation (addr : Nat) (bytes : List Nat) (start stop : Bool) :
    Except Error Nat :=
  (if start then add_cmd ⟨16, []⟩ .Start else .ok ⟨16, []⟩).bind fun q =>
    (setup_write addr bytes start q).bind fun p =>
      (add_cmd p.1 (if stop then .Stop else .End)).bind fun _ =>
        fill_tx_fifo bytes

/-- Driver::write_operation_blocking on esp32/esp32s2: the short-circuit
for a zero-length write without start or stop, then the start_write /
fill-remaining / wait pipeline; obs, slots and ck abstract the hardware
observations of the wait and fill loops. -/
def write_operation_blocking (v : Variant) (obs : Nat → HwState)
    (slots : List CmdSlot) (ck : Nat → Except Error Unit)
    (addr : Nat) (bytes : List Nat) (start stop : Bool) : Except Error Unit :=
  if bytes = [] ∧ start = false ∧ stop = false then .ok ()
  else
    (start_write_operation addr bytes start stop).bind fun index =>
      (write_remaining_tx_fifo_blocking ck index bytes).bind fun _ =>
        wait_for_completion_blocking v (!stop) obs slots

/-- The chunk loop of Driver::write_blocking, aborting at the first failed
chunk. -/
def run_write_chunks (wo : List Nat → Bool → Bool → Except Error Unit)
    (start stop : Bool) (chunk_count : Nat) :
    List (Nat × List Nat) → Except Error Unit
  | [] => .ok ()
  | p :: rest =>
    (wo p.2 (start && decide (p.1 = 0))
        (stop && decide (p.1 = chunk_count - 1))).bind fun _ =>
      run_write_chunks wo start stop chunk_count rest

/-- Driver::write_blocking on the esp32/esp32s2 variants, where
I2C_CHUNK_SIZE is 32: the empty buffer goes through a single empty
write_operation_blocking, every other buffer through the chunk loop. -/
def write_blocking (v : Variant) (obs : Nat → HwState) (slots : List CmdSlot)
    (ck : Nat → Except Error Unit) (addr : Nat) (buffer : List Nat)
    (start stop : Bool) : Except Error Unit :=
  if buffer = [] then
    write_operation_blocking v obs slots ck addr [] start stop
  else
    run_write_chunks (write_operation_blocking v obs slots ck addr) start stop
      ((buffer.length + 32 - 1) / 32) ((chunksOf 32 buffer).enum)

end FifoLimited

/-- One physical operation handed by the transaction sequencer to the
chunking read/write drivers, with the flags the sequencer computed. -/
inductive SeqCall
  | write (bytes : List Nat) (start stop : Bool)
  | read (len : Nat) (start stop will_continue : Bool)
deriving DecidableEq

/-- The body of one iteration of transaction_impl's while loop
(master/mod.rs): a write gets start unless the previous retained operation
was a write and stop when no operation follows; a read gets start unless
the previous retained operation was a read, stop when no operation
follows, and will_continue when the next retained operation is a read. -/
def mkCall (last_op : Option OpKind) (op : Operation) (next_op : Option OpKind) :
    SeqCall :=
  match op with
  | .Write bytes =>
    .write bytes (!decide (last_op = some .Write)) (decide (next_op = none))
  | .Read len =>
    .read len (!decide (last_op = some .Read)) (decide (next_op = none))
      (decide (next_op = some .Read))

/-- The while-let loop of transaction_impl over the already-filtered
operation sequence, threading the last_op accumulator. -/
def transactionFlow (last_op : Option OpKind) : List Operation → List SeqCall
  | [] => []
  | op :: rest =>
    mkCall last_op op (rest.head?.map Operation.kind) ::
      transactionFlow (some op.kind) rest

/-- I2cMaster::transaction_impl (master/mod.rs): filter out zero-length
read operations, then run the sequencer loop with last_op = None. -/
def transaction_impl (operations : List Operation) : List SeqCall :=
  transactionFlow none (operations.filter fun op => op.is_write || !op.is_empty)

/-- I2cMaster::transaction_impl_async (master/mod.rs): textually the same
loop as the blocking transaction_impl. -/
def transaction_impl_async (operations : List Operation) : List SeqCall :=
  transactionFlow none (operations.filter fun op => op.is_write || !op.is_empty)

/-- The claim's positional description of the sequencer output, for
comparison with transaction_impl: over the retained list r, operation i
gets start exactly when i = 0 or its kind differs from that of its
predecessor, stop exactly when i is the last index, and a read gets
will_continue exactly when the next retained operation exists and is a
read. -/
def sequencerSpec (r : List Operation) : List SeqCall :=
  (List.range r.length).map fun i =>
    let op := r.getD i (.Write [])
    let start := decide (i = 0) ||
      !decide ((r.getD (i - 1) (.Write [])).kind = op.kind)
    let stop := decide (i = r.length - 1)
    let wc := decide ((r.get? (i + 1)).map Operation.kind = some .Read)
    match op with
    | .Write bytes => .write bytes start stop
    | .Read len => .read len start stop wc

/-- Generalisation of sequencerSpec making the kind preceding index 0 a
parameter, mirroring the last_op accumulator of the loop. -/
def genCalls (last_op : Option OpKind) (r : List Operation) : List SeqCall :=
  (List.range r.length).map fun i =>
    let op := r.getD i (.Write [])
    let prev := if i = 0 then last_op else some ((r.getD (i - 1) (.Write [])).kind)
    let start := !decide (prev = some op.kind)
    let stop := decide (i = r.length - 1)
    let wc := decide ((r.get? (i + 1)).map Operation.kind = some .Read)
    match op with
    | .Write bytes => .write bytes start stop
    | .Read len => .read len start stop wc

/-! ## Claim C2: fault classification and reset-before-return -/

/-- The code's NACK-reason heuristic agrees with the spec's description of
it on every variant. -/
theorem estimate_eq_ackReasonSpec (v : Variant) (s : HwState) :
    estimate_ack_failed_reason v s = ackReasonSpec v s := by
  cases v <;>
    simp [estimate_ack_failed_reason, ackReasonSpec, Variant.has_pointer_introspection]

/-- The state component of check_errors: untouched on Ok, reset on error. -/
theorem check_errors_snd (v : Variant) (s : HwState) :
    (check_errors v s).2 =
      if (check_errors v s).1 = .ok () then s else reset s := by
  unfold check_errors
  cases hr : check_errors_retval v s <;> simp [hr]

/-- C2: check_errors classifies faults in priority order bus-timeout,
NACK (with the reason heuristic of ackReasonSpec), arbitration loss; on
any error it performs the full peripheral reset before returning, and on
Ok it leaves the register state untouched. -/
theorem check_errors_classification (v : Variant) (s : HwState) :
    (estimate_ack_failed_reason v s = ackReasonSpec v s) ∧
    (s.int_raw.time_out = true → check_errors v s = (.error .Timeout, reset s)) ∧
    (s.int_raw.time_out = false → s.int_raw.nack = true →
      check_errors v s =
        (.error (.AcknowledgeCheckFailed (ackReasonSpec v s)), reset s)) ∧
    (s.int_raw.time_out = false → s.int_raw.nack = false →
      s.int_raw.arbitration_lost = true →
      check_errors v s = (.error .ArbitrationLost, reset s)) ∧
    (∀ e, (check_errors v s).1 = .error e → (check_errors v s).2 = reset s) ∧
    ((check_errors v s).1 = .ok () → (check_errors v s).2 = s) := by
  refine ⟨estimate_eq_ackReasonSpec v s, fun h => ?_, fun h1 h2 => ?_,
    fun h1 h2 h3 => ?_, fun e h => ?_, fun h => ?_⟩
  · by_cases hv : v = .esp32 <;> simp [check_errors, check_errors_retval, hv, h]
  · rw [← estimate_eq_ackReasonSpec]
    by_cases hv : v = .esp32 <;> simp [check_errors, check_errors_retval, hv, h1, h2]
  · by_cases hv : v = .esp32 <;> simp [check_errors, check_errors_retval, hv, h1, h2, h3]
  · rw [check_errors_snd, if_neg]
    simp [h]
  · rw [check_errors_snd, if_pos h]

/-- Witness for check_errors_classification: with only the bus-timeout flag
raised on the esp32c6 variant, check_errors returns Timeout and resets. -/
theorem check_errors_classification_witness :
    check_errors .esp32c6
        ⟨⟨true, false, false, false, false, false, false, false⟩, false, 0, [], [], []⟩ =
      (.error .Timeout,
        reset ⟨⟨true, false, false, false, false, false, false, false⟩, false, 0, [], [], []⟩) :=
  (check_errors_classification _ _).2.1 rfl

/-! ## Claims C3 and C4: command encoding (setup_read / setup_write) -/

/-- C4 counterexample: the claim states that a zero-length write emits no
command, but for a zero-length write with start = true the code emits one
Write command of length 1 (the address byte); first conjunct shows what the
code actually produces, second refutes the claim's prediction of an
untouched queue. -/
theorem setup_write_probe_counterexample :
    setup_write 0x20 [] true ⟨8, []⟩ =
      .ok (⟨7, [Command.Write .Ack true 1]⟩, [0x40]) ∧
    setup_write 0x20 [] true ⟨8, []⟩ ≠ .ok (⟨8, []⟩, [0x40]) :=
  ⟨rfl, by decide⟩

/-- C4 (amended): setup_write fails with FifoExceeded when the slice length
exceeds 254 if start else 255; otherwise it emits exactly one Write command
sized to the data length plus one when start (the address byte is counted)
else the data length, emitting no command exactly when that count is zero
(a zero-length write without start); when start it loads the address with
the write-direction bit into the TX FIFO ahead of the payload. -/
theorem setup_write_spec (addr : Nat) (bytes : List Nat) (start : Bool) (q : CmdQueue)
    (hcap : 1 ≤ q.capacity) :
    (bytes.length > (if start then 254 else 255) →
      setup_write addr bytes start q = .error .FifoExceeded) ∧
    (bytes.length ≤ (if start then 254 else 255) →
      setup_write addr bytes start q =
        if bytes.length + (if start then 1 else 0) = 0 then .ok (q, [])
        else .ok (⟨q.capacity - 1,
              q.cmds ++ [.Write .Ack true (bytes.length + (if start then 1 else 0))]⟩,
            if start then [((addr <<< 1) % 256) ||| 0] else [])) := by
  obtain ⟨cap, cs⟩ := q
  replace hcap : 1 ≤ cap := hcap
  obtain ⟨c, rfl⟩ : ∃ c, cap = c + 1 := ⟨cap - 1, by omega⟩
  refine ⟨fun h => ?_, fun h => ?_⟩
  · simp only [setup_write]
    rw [if_pos h]
  · cases start
    · simp only [Bool.false_eq_true, if_false] at h ⊢
      by_cases hb : bytes.length = 0
      · simp [setup_write, hb, Except.bind]
      · simp only [setup_write, Bool.false_eq_true, if_false]
        rw [if_neg (by omega : ¬ bytes.length > 255),
          if_pos (by omega : bytes.length > 0),
          Nat.mod_eq_of_lt (by omega : bytes.length < 256)]
        simp [add_cmd, Except.bind, hb]
    · simp only [if_true] at h ⊢
      simp only [setup_write, if_true]
      rw [if_neg (by omega : ¬ bytes.length > 254),
        if_pos (by omega : bytes.length + 1 > 0),
        Nat.mod_eq_of_lt (by omega : bytes.length + 1 < 256)]
      simp [add_cmd, Except.bind]

/-- Witness for setup_write_spec: a one-byte write with start on a fresh
queue emits a two-byte Write command and the address byte 0x40. -/
theorem setup_write_spec_witness :
    1 ≤ (⟨8, []⟩ : CmdQueue).capacity ∧
    ([0xaa] : List Nat).length ≤ (if true then 254 else 255) ∧
    setup_write 0x20 [0xaa] true ⟨8, []⟩ =
      .ok (⟨7, [Command.Write .Ack true 2]⟩, [0x40]) := by
  refine ⟨by decide, by decide, ?_⟩
  have h := (setup_write_spec 0x20 [0xaa] true ⟨8, []⟩ (by decide)).2 (by decide)
  simpa using h

/-- C3: setup_read fails with ZeroLengthInvalid on an empty buffer, with
FifoExceeded when the length exceeds 255 if will_continue else 254, and
otherwise appends, in order: a one-byte Write command only when start, a
Read(Ack) command over all bytes when will_continue else all but the last
(omitted when that count is zero), and a one-byte Read(Nack) command exactly
when not will_continue; when start the address with the read-direction bit
is loaded into the TX FIFO. -/
theorem setup_read_spec (addr bufLen : Nat) (start will_continue : Bool) (q : CmdQueue)
    (hcap : 3 ≤ q.capacity) :
    (bufLen = 0 → setup_read addr bufLen start will_continue q = .error .ZeroLengthInvalid) ∧
    (bufLen ≠ 0 → bufLen > (if will_continue then 255 else 254) →
      setup_read addr bufLen start will_continue q = .error .FifoExceeded) ∧
    (bufLen ≠ 0 → bufLen ≤ (if will_continue then 255 else 254) →
      setup_read addr bufLen start will_continue q =
        .ok (⟨q.capacity -
              ((if start then [Command.Write .Ack true 1] else []) ++
               (if (if will_continue then bufLen else bufLen - 1) > 0 then
                  [Command.Read .Ack (if will_continue then bufLen else bufLen - 1)] else []) ++
               (if !will_continue then [Command.Read .Nack 1] else [])).length,
             q.cmds ++
              ((if start then [Command.Write .Ack true 1] else []) ++
               (if (if will_continue then bufLen else bufLen - 1) > 0 then
                  [Command.Read .Ack (if will_continue then bufLen else bufLen - 1)] else []) ++
               (if !will_continue then [Command.Read .Nack 1] else []))⟩,
            if start then [((addr <<< 1) % 256) ||| 1] else [])) := by
  obtain ⟨cap, cs⟩ := q
  replace hcap : 3 ≤ cap := hcap
  obtain ⟨c, rfl⟩ : ∃ c, cap = c + 3 := ⟨cap - 3, by omega⟩
  refine ⟨fun h0 => ?_, fun h0 hgt => ?_, fun h0 hle => ?_⟩
  · simp [setup_read, h0]
  · simp only [setup_read, if_neg h0]
    rw [if_pos hgt]
  · cases will_continue
    · simp only [Bool.false_eq_true, if_false] at hle ⊢
      simp only [setup_read, if_neg h0, Bool.false_eq_true, if_false, Bool.not_false, if_true]
      rw [if_neg (by omega : ¬ bufLen > 254),
        Nat.mod_eq_of_lt (by omega : bufLen - 1 < 256)]
      by_cases hb : bufLen - 1 = 0
      · cases start <;> simp_all [add_cmd, Except.bind]
      · cases start <;> simp_all [add_cmd, Except.bind, Nat.pos_of_ne_zero hb]
    · simp only [if_true] at hle ⊢
      simp only [setup_read, if_neg h0, if_true, Bool.not_true, Bool.false_eq_true, if_false]
      rw [if_neg (by omega : ¬ bufLen > 255),
        Nat.mod_eq_of_lt (by omega : bufLen < 256)]
      cases start <;> simp_all [add_cmd, Except.bind, Nat.pos_of_ne_zero h0]

/-- Witness for setup_read_spec: a three-byte final read with start on a
fresh queue emits the address Write, a two-byte Read(Ack) and the final
Read(Nack), and loads address byte 0x41. -/
theorem setup_read_spec_witness :
    3 ≤ (⟨8, []⟩ : CmdQueue).capacity ∧ (3 : Nat) ≠ 0 ∧ (3 : Nat) ≤ 254 ∧
    setup_read 0x20 3 true false ⟨8, []⟩ =
      .ok (⟨5, [Command.Write .Ack true 1, Command.Read .Ack 2, Command.Read .Nack 1]⟩,
        [0x41]) := by
  refine ⟨by decide, by decide, by decide, ?_⟩
  have h := (setup_read_spec 0x20 3 true false ⟨8, []⟩ (by decide)).2.2 (by decide) (by decide)
  simpa using h

/-! ## Claims C5 and C6: bus-timeout configuration -/

/-- Helper to evaluate Nat.log2 at concrete arguments, since log2 is
defined by well-founded recursion and does not reduce definitionally. -/
theorem log2_concrete {n k : Nat} (h1 : 2 ^ k ≤ n) (h2 : n < 2 ^ (k + 1)) :
    n.log2 = k := by
  have hpow : 1 ≤ 2 ^ k := Nat.one_le_two_pow
  have hne : n ≠ 0 := by omega
  have ha : k ≤ n.log2 := (Nat.le_log2 hne).mpr h1
  have hb : n.log2 < k + 1 := (Nat.log2_lt hne).mpr h2
  omega

/-- C5: on each variant family, the BusCycles timeout computation fails
with TimeoutInvalid exactly when the derived register value (the scaled
cycle count on esp32/esp32s2, the rounded exponent on the exponent-form
variants) exceeds the variant maximum, and returns that value when it is at
or below the maximum. -/
theorem set_frequency_timeout_spec (cycles half_cycle : Nat) :
    (set_frequency_timeout_esp32 cycles half_cycle = .error .TimeoutInvalid ↔
      (cycles * 2 * half_cycle) % 2 ^ 32 > 0xFFFFF) ∧
    ((cycles * 2 * half_cycle) % 2 ^ 32 ≤ 0xFFFFF →
      set_frequency_timeout_esp32 cycles half_cycle =
        .ok ((cycles * 2 * half_cycle) % 2 ^ 32)) ∧
    (set_frequency_timeout_esp32s2 cycles half_cycle = .error .TimeoutInvalid ↔
      (cycles * 2 * half_cycle) % 2 ^ 32 > 0xFFFFFF) ∧
    ((cycles * 2 * half_cycle) % 2 ^ 32 ≤ 0xFFFFFF →
      set_frequency_timeout_esp32s2 cycles half_cycle =
        .ok ((cycles * 2 * half_cycle) % 2 ^ 32)) ∧
    (set_frequency_timeout_exponent cycles half_cycle = .error .TimeoutInvalid ↔
      timeout_raw_exponent cycles half_cycle > 0x1F) ∧
    (timeout_raw_exponent cycles half_cycle ≤ 0x1F →
      set_frequency_timeout_exponent cycles half_cycle =
        .ok (timeout_raw_exponent cycles half_cycle)) := by
  refine ⟨?_, ?_, ?_, ?_, ?_, ?_⟩ <;>
    simp only [set_frequency_timeout_esp32, set_frequency_timeout_esp32s2,
      set_frequency_timeout_exponent, check_timeout] <;>
    split <;> simp_all <;> try omega

/-- Witness for set_frequency_timeout_spec: with cycles = 10 and
half_cycle = 100 the esp32 derived value 2000 is accepted; with cycles and
half_cycle both 1 the exponent form computes exponent 1 and accepts it. -/
theorem set_frequency_timeout_spec_witness :
    (10 * 2 * 100) % 2 ^ 32 ≤ 0xFFFFF ∧
    set_frequency_timeout_esp32 10 100 = .ok 2000 ∧
    timeout_raw_exponent 1 1 ≤ 0x1F ∧
    set_frequency_timeout_exponent 1 1 = .ok (timeout_raw_exponent 1 1) := by
  have hl2 : Nat.log2 2 = 1 := log2_concrete (by norm_num) (by norm_num)
  have ht : timeout_to_peri 1 1 = 2 := by decide
  have hraw : timeout_raw_exponent 1 1 = 1 := by
    simp [timeout_raw_exponent, ht, hl2, Nat.shiftLeft_eq]
  refine ⟨by decide, ?_, ?_, ?_⟩
  · have h := (set_frequency_timeout_spec 10 100).2.1 (by decide)
    simpa using h
  · rw [hraw]
    omega
  · exact (set_frequency_timeout_spec 1 1).2.2.2.2.2 (by rw [hraw]; omega)

/-- C6 counterexample: with cycles = 2^31 and half_cycle = 1 the wrapping
u32 product is 0, so the computed exponent is 0 and the effective timeout
2^0 = 1 is far below the requested cycles * 2 * half_cycle = 2^32; the
claim's inequality over the mathematical product fails. -/
theorem timeout_exponent_overflow_counterexample :
    timeout_raw_exponent (2 ^ 31) 1 = 0 ∧
    2 ^ timeout_raw_exponent (2 ^ 31) 1 < max (2 ^ 31 * 2 * 1) 1 := by
  have h0 : Nat.log2 1 = 0 := log2_concrete (by norm_num) (by norm_num)
  have ht : timeout_to_peri 2147483648 1 = 1 := by decide
  have hraw : timeout_raw_exponent (2 ^ 31) 1 = 0 := by
    simp [timeout_raw_exponent, ht, h0, Nat.shiftLeft_eq]
  refine ⟨hraw, ?_⟩
  rw [hraw]
  have hle : (2 : Nat) ^ 31 * 2 * 1 ≤ max (2 ^ 31 * 2 * 1) 1 := le_max_left _ _
  have : (2 : Nat) ^ 0 < 2 ^ 31 * 2 * 1 := by norm_num
  omega

/-- C6 (amended): the computed exponent raw always satisfies
2^raw >= to_peri where to_peri = max((cycles * 2 * half_cycle) mod 2^32, 1)
is the wrapped product the code actually uses, raw is the least such
exponent, and whenever cycles * 2 * half_cycle does not overflow u32 the
claim's original bound 2^raw >= max(cycles * 2 * half_cycle, 1) holds. -/
theorem timeout_exponent_rounds_up (cycles half_cycle : Nat) :
    timeout_to_peri cycles half_cycle ≤ 2 ^ timeout_raw_exponent cycles half_cycle ∧
    (∀ e : Nat, timeout_to_peri cycles half_cycle ≤ 2 ^ e →
      timeout_raw_exponent cycles half_cycle ≤ e) ∧
    (cycles * 2 * half_cycle < 2 ^ 32 →
      max (cycles * 2 * half_cycle) 1 ≤ 2 ^ timeout_raw_exponent cycles half_cycle) := by
  have hn : 1 ≤ timeout_to_peri cycles half_cycle := le_max_right _ 1
  set n := timeout_to_peri cycles half_cycle with hdefn
  have hne : n ≠ 0 := by omega
  have h1 : 2 ^ n.log2 ≤ n := (Nat.le_log2 hne).mp le_rfl
  have h2 : n < 2 ^ (n.log2 + 1) := (Nat.log2_lt hne).mp (Nat.lt_succ_self _)
  have hshift : (1 : Nat) <<< n.log2 = 2 ^ n.log2 := by
    rw [Nat.shiftLeft_eq, one_mul]
  have hraw : timeout_raw_exponent cycles half_cycle =
      if n ≠ 2 ^ n.log2 then n.log2 + 1 else n.log2 := by
    simp only [timeout_raw_exponent, ← hdefn, hshift]
  have hub : n ≤ 2 ^ timeout_raw_exponent cycles half_cycle := by
    rw [hraw]
    by_cases hp : n = 2 ^ n.log2
    · rw [if_neg (not_not_intro hp)]
      exact le_of_eq hp
    · rw [if_pos hp]
      omega
  refine ⟨hub, fun e he => ?_, fun hov => ?_⟩
  · rw [hraw]
    by_cases hp : n = 2 ^ n.log2
    · rw [if_neg (not_not_intro hp)]
      rw [hp] at he
      exact (Nat.pow_le_pow_iff_right Nat.one_lt_two).mp he
    · rw [if_pos hp]
      by_contra hlt
      push_neg at hlt
      have he2 : e ≤ n.log2 := by omega
      have hle : 2 ^ e ≤ 2 ^ n.log2 := Nat.pow_le_pow_right (by omega) he2
      have heq : n = 2 ^ e := le_antisymm he (le_trans hle h1)
      have hn2 : n ≤ 2 ^ n.log2 := le_trans (le_of_eq heq) hle
      exact hp (le_antisymm hn2 h1)
  · have hmod : (cycles * 2 * half_cycle) % 2 ^ 32 = cycles * 2 * half_cycle :=
      Nat.mod_eq_of_lt hov
    have hmax : max (cycles * 2 * half_cycle) 1 = n := by
      rw [hdefn]
      unfold timeout_to_peri
      omega
    rw [hmax]
    exact hub

/-- Witness for timeout_exponent_rounds_up: at cycles = 3, half_cycle = 5
the wrapped product is 30, the computed exponent is 5, minimality gives
raw at most 5 against the bound 30 <= 2^5, and the no-overflow bound
applies since 30 < 2^32. -/
theorem timeout_exponent_rounds_up_witness :
    timeout_to_peri 3 5 ≤ 2 ^ timeout_raw_exponent 3 5 ∧
    timeout_raw_exponent 3 5 ≤ 5 ∧
    max (3 * 2 * 5) 1 ≤ 2 ^ timeout_raw_exponent 3 5 :=
  ⟨(timeout_exponent_rounds_up 3 5).1,
   (timeout_exponent_rounds_up 3 5).2.1 5 (by decide),
   (timeout_exponent_rounds_up 3 5).2.2 (by decide)⟩

/-! ## Claim C1: the transaction sequencer -/

/-- genCalls unfolds along the loop structure of transactionFlow. -/
theorem genCalls_cons (last_op : Option OpKind) (op : Operation) (rest : List Operation) :
    genCalls last_op (op :: rest) =
      mkCall last_op op (rest.head?.map Operation.kind) ::
        genCalls (some op.kind) rest := by
  unfold genCalls
  rw [List.length_cons, List.range_succ_eq_map, List.map_cons, List.map_map]
  congr 1
  · cases op <;> cases rest <;> simp [mkCall, Operation.kind]
  · refine List.map_congr_left fun i hi => ?_
    simp only [List.mem_range] at hi
    have hstop : (i + 1 = rest.length) = (i = rest.length - 1) := propext (by omega)
    cases i with
    | zero => simp [Function.comp, hstop]
    | succ j => simp [Function.comp, hstop]

/-- The sequencer loop computes genCalls. -/
theorem flow_eq_genCalls (last_op : Option OpKind) (r : List Operation) :
    transactionFlow last_op r = genCalls last_op r := by
  induction r generalizing last_op with
  | nil => simp [transactionFlow, genCalls]
  | cons op rest ih =>
    rw [transactionFlow, genCalls_cons, ih]

/-- The claim's positional flag description coincides with genCalls when no
operation precedes the list. -/
theorem sequencerSpec_eq_genCalls (r : List Operation) :
    sequencerSpec r = genCalls none r := by
  unfold sequencerSpec genCalls
  refine List.map_congr_left fun i hi => ?_
  cases i with
  | zero => simp
  | succ j => simp

/-- The code's retention filter keeps exactly the writes (also zero-length
ones) and the nonempty reads. -/
theorem filter_retained (ops : List Operation) :
    (ops.filter fun op => op.is_write || !op.is_empty) =
      ops.filter fun op => match op with
        | .Write _ => true
        | .Read len => decide (len ≠ 0) := by
  refine List.filter_congr fun op _ => ?_
  cases op with
  | Write bytes => simp [Operation.is_write, Operation.is_empty]
  | Read len => cases len <;> simp [Operation.is_write, Operation.is_empty]

/-- C1: both transaction sequencers drop exactly the zero-length reads and
keep zero-length writes, and over the retained sequence pass start exactly
to the first operation and to every operation whose kind differs from its
predecessor, stop exactly to the last operation, and will_continue to a
read exactly when the next retained operation is also a read. -/
theorem transaction_impl_contract (ops : List Operation) :
    transaction_impl ops =
      sequencerSpec (ops.filter fun op => match op with
        | .Write _ => true
        | .Read len => decide (len ≠ 0)) ∧
    transaction_impl_async ops = transaction_impl ops := by
  refine ⟨?_, rfl⟩
  rw [transaction_impl, ← filter_retained, flow_eq_genCalls, sequencerSpec_eq_genCalls]

/-! ## Claim C7: bounded completion polling -/

/-- A successful poll requires some iteration within the budget to have
observed the completion condition. -/
theorem waitPoll_ok_implies_completion (v : Variant) (end_only : Bool)
    (obs : Nat → HwState) :
    ∀ t i, waitPoll v end_only obs t i = .ok () →
      ∃ j, i ≤ j ∧ j < i + t ∧ completionSeen end_only (obs j) = true := by
  intro t
  induction t with
  | zero =>
    intro i h
    simp [waitPoll] at h
  | succ tout ih =>
    intro i h
    rw [waitPoll.eq_def] at h
    simp only [] at h
    cases hc : (check_errors v (obs i)).1 with
    | error e => rw [hc] at h; simp [Except.bind] at h
    | ok u =>
      rw [hc] at h
      simp only [Except.bind] at h
      by_cases hcs : completionSeen end_only (obs i) = true
      · exact ⟨i, le_refl i, by omega, hcs⟩
      · rw [if_neg hcs] at h
        cases tout with
        | zero => simp at h
        | succ t =>
          simp only [] at h
          obtain ⟨j, hj1, hj2, hj3⟩ := ih (i + 1) h
          exact ⟨j, by omega, by omega, hj3⟩

/-- When no iteration within the budget observes a fault or the completion
condition, the poll returns Timeout. -/
theorem waitPoll_no_event_timeout (v : Variant) (end_only : Bool)
    (obs : Nat → HwState) :
    ∀ t i, (∀ j, i ≤ j → j < i + t →
        (check_errors v (obs j)).1 = .ok () ∧
          completionSeen end_only (obs j) = false) →
      waitPoll v end_only obs t i = .error .Timeout := by
  intro t
  induction t with
  | zero =>
    intro i _
    rw [waitPoll.eq_def]
  | succ tout ih =>
    intro i hall
    have h0 := hall i (le_refl i) (by omega)
    rw [waitPoll.eq_def]
    simp only []
    rw [h0.1]
    simp only [Except.bind]
    rw [if_neg (by simp [h0.2])]
    cases tout with
    | zero => rfl
    | succ t =>
      exact ih (i + 1) fun j hj1 hj2 => hall j (by omega) (by omega)

/-- check_all_commands_done succeeds exactly when no occupied, non-End,
not-done slot exists, and fails with ExecutionIncomplete exactly when one
does. -/
theorem check_all_commands_done_iff (slots : List CmdSlot) :
    (check_all_commands_done slots = .error .ExecutionIncomplete ↔
      ∃ c ∈ slots, c.bits ≠ 0 ∧ c.opcode_is_end = false ∧ c.command_done = false) ∧
    (check_all_commands_done slots = .ok () ↔
      ∀ c ∈ slots, c.bits = 0 ∨ c.opcode_is_end = true ∨ c.command_done = true) := by
  induction slots with
  | nil => simp [check_all_commands_done]
  | cons c rest ih =>
    by_cases hc : c.bits ≠ 0 ∧ c.opcode_is_end = false ∧ c.command_done = false
    · have hrun : check_all_commands_done (c :: rest) = .error .ExecutionIncomplete := by
        simp only [check_all_commands_done, if_pos hc]
      constructor
      · constructor
        · intro _
          exact ⟨c, List.mem_cons_self c rest, hc⟩
        · intro _
          exact hrun
      · rw [hrun]
        constructor
        · intro h
          simp at h
        · intro h
          exfalso
          rcases h c (List.mem_cons_self c rest) with h' | h' | h' <;> simp_all
    · have hrun : check_all_commands_done (c :: rest) = check_all_commands_done rest := by
        simp only [check_all_commands_done, if_neg hc]
      rw [hrun]
      constructor
      · rw [ih.1]
        constructor
        · intro ⟨d, hd, hbad⟩
          exact ⟨d, List.mem_cons_of_mem c hd, hbad⟩
        · rintro ⟨d, hd, hbad⟩
          rcases List.mem_cons.mp hd with rfl | hd'
          · exact absurd hbad hc
          · exact ⟨d, hd', hbad⟩
      · rw [ih.2]
        constructor
        · intro h d hd
          rcases List.mem_cons.mp hd with rfl | hd'
          · by_cases hb : d.bits = 0
            · exact Or.inl hb
            · cases he : d.opcode_is_end
              · cases hdone : d.command_done
                · exact absurd ⟨hb, he, hdone⟩ hc
                · exact Or.inr (Or.inr rfl)
              · exact Or.inr (Or.inl rfl)
          · exact h d hd'
        · intro h d hd
          exact h d (List.mem_cons_of_mem c hd)

/-- C7 counterexample: on a trace where the NACK fault flag is
permanently raised and neither completion condition ever holds, the wait
returns AcknowledgeCheckFailed, not Timeout, refuting the claim's
unconditional 'no completion observed implies Timeout'. -/
theorem wait_completion_fault_not_timeout :
    completionSeen false
      ⟨⟨false, true, false, false, false, false, false, false⟩, false, 0, [], [], []⟩ = false ∧
    wait_for_completion_blocking .esp32 false
      (fun _ => ⟨⟨false, true, false, false, false, false, false, false⟩, false, 0, [], [], []⟩)
      [] = .error (.AcknowledgeCheckFailed .Unknown) ∧
    (Except.error (.AcknowledgeCheckFailed .Unknown) : Except Error Unit) ≠
      .error .Timeout := by
  refine ⟨rfl, ?_, by simp⟩
  rfl

/-- C7 (amended): the wait returns successfully only if some iteration
within the MAX_ITERATIONS budget observed the completion condition
(end-detect, or transmission-complete while not end_only) and all commands
are done; when no iteration within the budget observes a fault or the
completion condition it returns Timeout (a fault observed first is
returned as that fault's error instead); and once the poll has seen
completion, it returns ExecutionIncomplete exactly when some command slot
is non-empty, not an End opcode, and not done. -/
theorem wait_for_completion_blocking_spec (v : Variant) (end_only : Bool)
    (obs : Nat → HwState) (slots : List CmdSlot) :
    (wait_for_completion_blocking v end_only obs slots = .ok () →
      (∃ j, j < MAX_ITERATIONS ∧ completionSeen end_only (obs j) = true) ∧
        check_all_commands_done slots = .ok ()) ∧
    ((∀ j, j < MAX_ITERATIONS →
        (check_errors v (obs j)).1 = .ok () ∧
          completionSeen end_only (obs j) = false) →
      wait_for_completion_blocking v end_only obs slots = .error .Timeout) ∧
    (waitPoll v end_only obs MAX_ITERATIONS 0 = .ok () →
      (wait_for_completion_blocking v end_only obs slots =
          .error .ExecutionIncomplete ↔
        ∃ c ∈ slots,
          c.bits ≠ 0 ∧ c.opcode_is_end = false ∧ c.command_done = false)) := by
  refine ⟨fun h => ?_, fun hall => ?_, fun hok => ?_⟩
  · unfold wait_for_completion_blocking at h
    cases hp : waitPoll v end_only obs MAX_ITERATIONS 0 with
    | error e => rw [hp] at h; simp [Except.bind] at h
    | ok u =>
      rw [hp] at h
      simp only [Except.bind] at h
      obtain ⟨j, _, hj2, hj3⟩ := waitPoll_ok_implies_completion v end_only obs _ _ hp
      exact ⟨⟨j, by omega, hj3⟩, h⟩
  · unfold wait_for_completion_blocking
    rw [waitPoll_no_event_timeout v end_only obs MAX_ITERATIONS 0
      fun j hj1 hj2 => hall j (by omega)]
    rfl
  · unfold wait_for_completion_blocking
    rw [hok]
    simp only [Except.bind]
    exact (check_all_commands_done_iff slots).1

/-- Witness for wait_for_completion_blocking_spec: on the all-clear trace
(no fault flags, no completion flags) the wait exhausts its budget and
returns Timeout; the no-event hypothesis is discharged pointwise since the
trace is constant. -/
theorem wait_for_completion_blocking_spec_witness :
    wait_for_completion_blocking .esp32 false
      (fun _ => ⟨⟨false, false, false, false, false, false, false, false⟩, false, 0, [], [], []⟩)
      [] = .error .Timeout :=
  (wait_for_completion_blocking_spec .esp32 false _ []).2.1 fun _ _ => ⟨rfl, rfl⟩

/-! ## Claim C8: buffer chunking -/

/-- The number of chunks is the ceiling of the length divided by C. -/
theorem chunksOf_length {α : Type} (C : Nat) (hC : C ≠ 0) :
    ∀ (n : Nat) (l : List α), l.length ≤ n →
      (chunksOf C l).length = (l.length + C - 1) / C := by
  intro n
  induction n with
  | zero =>
    intro l hl
    have hnil : l = [] := List.eq_nil_of_length_eq_zero (by omega)
    subst hnil
    rw [chunksOf]
    simp only [List.isEmpty_nil, true_or, dite_true, List.length_nil]
    rw [Nat.div_eq_of_lt (by omega)]
  | succ n ih =>
    intro l hl
    by_cases hnil : l = []
    · subst hnil
      rw [chunksOf]
      simp only [List.isEmpty_nil, true_or, dite_true, List.length_nil]
      rw [Nat.div_eq_of_lt (by omega)]
    · rw [chunksOf, dif_neg (by simp [hnil, hC])]
      simp only [List.length_cons]
      rw [ih (l.drop C) (by simp only [List.length_drop]; omega)]
      simp only [List.length_drop]
      have hL : 1 ≤ l.length := List.length_pos.mpr hnil
      have hRHS : (l.length + C - 1) / C = (l.length - 1) / C + 1 := by
        have he : l.length + C - 1 = l.length - 1 + C := by omega
        rw [he, Nat.add_div_right _ (by omega)]
      rw [hRHS]
      rcases Nat.lt_or_ge l.length C with hlt | hge
      · have e1 : l.length - C = 0 := by omega
        rw [e1]
        simp only [Nat.zero_add]
        rw [Nat.div_eq_of_lt (by omega), Nat.div_eq_of_lt (by omega)]
      · have e1 : l.length - C + C - 1 = l.length - 1 := by omega
        rw [e1]

/-- The chunks are consecutive: concatenating them restores the buffer. -/
theorem chunksOf_flatten {α : Type} (C : Nat) (hC : C ≠ 0) :
    ∀ (n : Nat) (l : List α), l.length ≤ n → (chunksOf C l).flatten = l := by
  intro n
  induction n with
  | zero =>
    intro l hl
    have hnil : l = [] := List.eq_nil_of_length_eq_zero (by omega)
    subst hnil
    rw [chunksOf]
    simp
  | succ n ih =>
    intro l hl
    by_cases hnil : l = []
    · subst hnil
      rw [chunksOf]
      simp
    · rw [chunksOf, dif_neg (by simp [hnil, hC])]
      rw [List.flatten_cons]
      rw [ih (l.drop C) (by simp only [List.length_drop]; omega)]
      exact List.take_append_drop C l

/-- The chunk size is positive on every variant. -/
theorem I2C_CHUNK_SIZE_pos (v : Variant) : I2C_CHUNK_SIZE v ≠ 0 := by
  unfold I2C_CHUNK_SIZE
  split <;> omega

/-- The read chunking loop computes the claim's positional plan. -/
theorem read_plan_eq (v : Variant) (buffer : List Nat)
    (start stop will_continue : Bool) :
    read_blocking_ops v buffer start stop will_continue =
      readPlanSpec (I2C_CHUNK_SIZE v) buffer start stop will_continue := by
  have hlen : (chunksOf (I2C_CHUNK_SIZE v) buffer).length =
      (buffer.length + I2C_CHUNK_SIZE v - 1) / I2C_CHUNK_SIZE v :=
    chunksOf_length _ (I2C_CHUNK_SIZE_pos v) buffer.length buffer le_rfl
  simp only [read_blocking_ops, readPlanSpec]
  rw [← hlen]
  refine List.map_congr_left fun p hp => ?_
  have hip : p.1 < (chunksOf (I2C_CHUNK_SIZE v) buffer).length :=
    List.fst_lt_of_mem_enum hp
  obtain ⟨i, chunk⟩ := p
  simp only at hip ⊢
  by_cases hl : i = (chunksOf (I2C_CHUNK_SIZE v) buffer).length - 1
  · subst hl
    by_cases h0 : (chunksOf (I2C_CHUNK_SIZE v) buffer).length - 1 = 0 <;> simp [h0]
  · have hw : i < (chunksOf (I2C_CHUNK_SIZE v) buffer).length - 1 := by omega
    by_cases h0 : i = 0
    · subst h0
      simp [hl, hw]
    · simp [h0, hl, hw]

/-- The write chunking loop computes the claim's positional plan on every
nonempty buffer. -/
theorem write_plan_eq (v : Variant) (buffer : List Nat) (start stop : Bool)
    (hnil : buffer ≠ []) :
    write_blocking_ops v buffer start stop =
      writePlanSpec (I2C_CHUNK_SIZE v) buffer start stop := by
  have hlen : (chunksOf (I2C_CHUNK_SIZE v) buffer).length =
      (buffer.length + I2C_CHUNK_SIZE v - 1) / I2C_CHUNK_SIZE v :=
    chunksOf_length _ (I2C_CHUNK_SIZE_pos v) buffer.length buffer le_rfl
  simp only [write_blocking_ops, writePlanSpec, if_neg hnil]
  rw [← hlen]
  refine List.map_congr_left fun p hp => ?_
  have hip : p.1 < (chunksOf (I2C_CHUNK_SIZE v) buffer).length :=
    List.fst_lt_of_mem_enum hp
  obtain ⟨i, chunk⟩ := p
  simp only at hip ⊢
  by_cases hl : i = (chunksOf (I2C_CHUNK_SIZE v) buffer).length - 1
  · subst hl
    by_cases h0 : (chunksOf (I2C_CHUNK_SIZE v) buffer).length - 1 = 0 <;> simp [h0]
  · by_cases h0 : i = 0
    · subst h0
      simp [hl]
    · simp [h0, hl]

/-- C8: when the buffer exceeds the variant chunk size, the blocking and
async read/write drivers issue exactly ceil(L/C) physical operations over
consecutive chunks whose concatenation is the buffer; only the first chunk
receives the caller's start flag, only the last the caller's stop flag
(and for reads the caller's will_continue), intermediate chunks get
start = false and stop = false, and intermediate read chunks get
will_continue = true. -/
theorem chunking_spec (v : Variant) (buffer : List Nat)
    (start stop will_continue : Bool)
    (h : I2C_CHUNK_SIZE v < buffer.length) :
    (read_blocking_ops v buffer start stop will_continue).length =
      (buffer.length + I2C_CHUNK_SIZE v - 1) / I2C_CHUNK_SIZE v ∧
    (chunksOf (I2C_CHUNK_SIZE v) buffer).flatten = buffer ∧
    read_blocking_ops v buffer start stop will_continue =
      readPlanSpec (I2C_CHUNK_SIZE v) buffer start stop will_continue ∧
    write_blocking_ops v buffer start stop =
      writePlanSpec (I2C_CHUNK_SIZE v) buffer start stop ∧
    read_async_ops v buffer start stop will_continue =
      read_blocking_ops v buffer start stop will_continue ∧
    write_async_ops v buffer start stop =
      write_blocking_ops v buffer start stop := by
  have hnil : buffer ≠ [] := by
    intro hb
    rw [hb] at h
    simp at h
  refine ⟨?_, chunksOf_flatten _ (I2C_CHUNK_SIZE_pos v) buffer.length buffer le_rfl,
    read_plan_eq v buffer start stop will_continue,
    write_plan_eq v buffer start stop hnil, rfl, rfl⟩
  simp only [read_blocking_ops, List.length_map, List.enum_length]
  exact chunksOf_length _ (I2C_CHUNK_SIZE_pos v) buffer.length buffer le_rfl

/-- Witness for chunking_spec: a 33-byte buffer on the esp32 variant (chunk
size 32) splits into ceil(33/32) = 2 physical read operations. -/
theorem chunking_spec_witness :
    I2C_CHUNK_SIZE .esp32 < (List.replicate 33 (0 : Nat)).length ∧
    (read_blocking_ops .esp32 (List.replicate 33 0) true true false).length =
      ((List.replicate 33 (0 : Nat)).length + I2C_CHUNK_SIZE .esp32 - 1) /
        I2C_CHUNK_SIZE .esp32 :=
  ⟨by decide,
   (chunking_spec .esp32 (List.replicate 33 0) true true false (by decide)).1⟩

/-! ## Claim C9: the empty write short-circuit -/

/-- C9 counterexample: write_operation_blocking runs clear_all_interrupts
before the zero-length short-circuit, so with a pending NACK flag the call
returns Ok but the hardware state has changed — the claim's 'leaves all
hardware peripheral state unchanged' fails. -/
theorem empty_write_clears_interrupts :
    (write_operation_blocking (fun s => (.ok (), s)) [] false false
        ⟨⟨false, true, false, false, false, false, false, false⟩, false, 0, [], [], []⟩).2 ≠
      ⟨⟨false, true, false, false, false, false, false, false⟩, false, 0, [], [], []⟩ ∧
    (write_operation_blocking (fun s => (.ok (), s)) [] false false
        ⟨⟨false, true, false, false, false, false, false, false⟩, false, 0, [], [], []⟩).1 =
      .ok () := by
  refine ⟨by decide, rfl⟩

/-- C9 (amended): a write of an empty slice with start = false and
stop = false returns Ok without entering the transfer path, whatever that
path would do; its only state change is deasserting the pending interrupt
flags (clear_all_interrupts), leaving resp_rec, the FIFO pointer and
contents and the command slots untouched. -/
theorem write_operation_blocking_empty_noop
    (rest : HwState → Except Error Unit × HwState) (s : HwState) :
    write_operation_blocking rest [] false false s =
      (.ok (), clear_all_interrupts s) ∧
    (clear_all_interrupts s).resp_rec = s.resp_rec ∧
    (clear_all_interrupts s).txfifo_raddr = s.txfifo_raddr ∧
    (clear_all_interrupts s).txfifo = s.txfifo ∧
    (clear_all_interrupts s).rxfifo = s.rxfifo ∧
    (clear_all_interrupts s).comd = s.comd ∧
    (clear_all_interrupts s).int_raw = .clearAll := by
  refine ⟨?_, rfl, rfl, rfl, rfl, rfl, rfl⟩
  simp [write_operation_blocking]

/-! ## Claim C10: writes of 32 or more bytes on the FIFO-limited variants -/

/-- C10: on the FIFO-depth-limited variants every blocking write of a
buffer of at least 32 bytes fails with FifoExceeded, for every hardware
behaviour: the chunker produces a first chunk of exactly 32 bytes and
fill_tx_fifo rejects any slice longer than 31 bytes, so the first physical
operation fails before any completion wait. -/
theorem write_blocking_small_fifo_always_fails (v : Variant)
    (obs : Nat → HwState) (slots : List CmdSlot) (ck : Nat → Except Error Unit)
    (addr : Nat) (buffer : List Nat) (start stop : Bool)
    (h : 32 ≤ buffer.length) :
    FifoLimited.write_blocking v obs slots ck addr buffer start stop =
      .error .FifoExceeded ∧
    (chunksOf 32 buffer).head? = some (buffer.take 32) ∧
    (buffer.take 32).length = 32 ∧
    FifoLimited.fill_tx_fifo (buffer.take 32) = .error .FifoExceeded := by
  have hnil : buffer ≠ [] := by
    intro hb
    rw [hb] at h
    simp at h
  have htake : (buffer.take 32).length = 32 := by
    rw [List.length_take]
    omega
  have hchunks : chunksOf 32 buffer =
      buffer.take 32 :: chunksOf 32 (buffer.drop 32) := by
    rw [chunksOf, dif_neg (by simp [hnil])]
  have hfill : FifoLimited.fill_tx_fifo (buffer.take 32) = .error .FifoExceeded := by
    unfold FifoLimited.fill_tx_fifo
    rw [if_pos (by omega)]
  have htne : buffer.take 32 ≠ [] := by
    intro hb
    rw [hb] at htake
    simp at htake
  have hop : ∀ s p : Bool,
      FifoLimited.write_operation_blocking v obs slots ck addr
        (buffer.take 32) s p = .error .FifoExceeded := by
    intro s p
    have hswo : FifoLimited.start_write_operation addr (buffer.take 32) s p =
        .error .FifoExceeded := by
      unfold FifoLimited.start_write_operation
      cases s <;> cases p <;>
        simp [add_cmd, setup_write, Except.bind, htake, hfill]
    unfold FifoLimited.write_operation_blocking
    rw [if_neg (by simp [htne]), hswo]
    rfl
  refine ⟨?_, by rw [hchunks]; rfl, htake, hfill⟩
  unfold FifoLimited.write_blocking
  rw [if_neg hnil, hchunks, List.enum_cons, FifoLimited.run_write_chunks, hop]
  rfl

/-- Witness for write_blocking_small_fifo_always_fails: a concrete 32-byte
write on the all-clear trace fails with FifoExceeded. -/
theorem write_blocking_small_fifo_always_fails_witness :
    32 ≤ (List.replicate 32 (0 : Nat)).length ∧
    FifoLimited.write_blocking .esp32
        (fun _ => ⟨⟨false, false, false, false, false, false, false, false⟩, false, 0, [], [], []⟩)
        [] (fun _ => .ok ()) 0x20 (List.replicate 32 0) true true =
      .error .FifoExceeded :=
  ⟨by decide,
   (write_blocking_small_fifo_always_fails .esp32 _ [] _ 0x20
      (List.replicate 32 0) true true (by decide)).1⟩

/-- Sanity check on the spec's write-then-read-read scenario: one START for
the write, a repeated START for the first read which ACKs its final byte,
and a NACK plus STOP only on the very last read. -/
theorem transaction_write_read_read_example :
    transaction_impl [.Write [0xaa], .Read 2, .Read 3] =
      [.write [0xaa] true false, .read 2 true false true,
       .read 3 false true false] := by
  decide

end I2cHal
